import Mathlib

/-!
# multilistener

A verification development for `listener.go`: a `Listener` that multiplexes the
connections of several underlying `net.Listener`s.

The sequential functions (`New`, `Addr`, `Close`, `Accept`, the body of `loop`) are
embedded as Lean functions.  The goroutines started by `New`, the callers of
`Accept` and the caller of `Close` are composed in a transition system `step`
whose actions are the atomic points of the Go program: evaluating a `select`,
closing the `closing` channel, and running the code between two such points.
-/

namespace Multilistener

/-! ## Values that come from outside the package -/

/-- A `net.Conn` handed out by an underlying listener. -/
structure Conn where
  id : Nat
deriving DecidableEq

/-- An `error` value produced by an underlying listener. -/
structure NetErr where
  id : Nat
deriving DecidableEq

/-- A `net.Addr`. -/
structure NetAddr where
  id : Nat
deriving DecidableEq

/-- An underlying `net.Listener`: its identity and what its `Addr()` returns.  What
its `Accept()` and `Close()` return is chosen by the environment at each call. -/
structure NetListener where
  id : Nat
  addr : NetAddr
deriving DecidableEq

/-- The method `Addr()` of an underlying listener. -/
def NetListener.Addr (x : NetListener) : NetAddr := x.addr

/-! ## Values of the package -/

/-- The `error` values that `Listener` methods return: an error of an underlying
listener passed on as it is, a `fmt.Errorf(msg)`, or a `&MultiError{Errors: errors}`. -/
inductive GoError where
  | underlying (e : NetErr)
  | errorf (msg : String)
  | multiError (Errors : List NetErr)
deriving DecidableEq

/-- Run-time panics of the program. -/
inductive Panic where
  | closeOfClosedChannel
  | indexOutOfRange
deriving DecidableEq

/-- The struct `acceptResults` (lines 16-19); `none` is Go's `nil`. -/
structure acceptResults where
  conn : Option Conn
  err : Option NetErr
deriving DecidableEq

/-- The struct `Listener` (lines 10-14).  `closing` is the state of the channel
`closing`: `false` while it is open, `true` once it has been closed.  The channel
`conns` is unbuffered and never closed; its state is the set of goroutines parked on
it, which `System` records in the program counters. -/
structure Listener where
  listeners : List NetListener
  closing : Bool
deriving DecidableEq

/-- Calls the program makes on objects it does not own, in program order. -/
inductive Event where
  | closeChan
  | listenerClose (x : NetListener)
  | connClose (c : Option Conn)
deriving DecidableEq

/-- Where a goroutine running `loop` (lines 95-111) stands: inside
`listener.Accept()` (line 97); parked in the `select` of line 102 holding `r`; woken
on the case `<-l.closing` (line 104) with lines 105-108 still to run; or returned
(line 108). -/
inductive LoopPC where
  | accepting
  | blocked (r : acceptResults)
  | shutdown (r : acceptResults)
  | exited
deriving DecidableEq

/-- A goroutine started by `go n.loop(n.listeners[i])`. -/
structure Loop where
  listener : NetListener
  pc : LoopPC
deriving DecidableEq

/-- What `New` returns, `(*Listener, error)`, and the goroutines it started. -/
structure NewResult where
  n : Option Listener
  err : Option GoError
  spawned : List Loop
deriving DecidableEq

/-- `New` (lines 26-42).  A goroutine just started is about to call
`listener.Accept()` at line 97. -/
def New (listeners : List NetListener) : NewResult :=
  if listeners.length = 0 then
    { n := none, err := some (.errorf "multilistener requires at least 1 listener"),
      spawned := [] }
  else
    let n : Listener := { listeners := listeners, closing := false }
    { n := some n, err := none,
      spawned := n.listeners.map (fun x => { listener := x, pc := .accepting }) }

/-- `Addr` (lines 46-48): `l.listeners[0].Addr()`; indexing an empty slice panics. -/
def Listener.Addr (l : Listener) : Except Panic NetAddr :=
  match l.listeners[0]? with
  | some x => .ok x.Addr
  | none => .error .indexOutOfRange

/-- `close(l.closing)` (line 57): closing a closed channel panics. -/
def closeChan (l : Listener) : Except Panic Listener :=
  if l.closing then .error .closeOfClosedChannel else .ok { l with closing := true }

/-- The `for` loop of `Close` (lines 59-64) from index `i` on, with `rest` the
listeners not yet visited; `ret i` is what the call `l.listeners[i].Close()` returns.
Returns the slice `errors` and the calls made. -/
def closeListeners (ret : Nat → Option NetErr) :
    List NetListener → Nat → List NetErr → List Event → List NetErr × List Event
  | [], _, errors, trace => (errors, trace)
  | x :: rest, i, errors, trace =>
    match ret i with
    | some err => closeListeners ret rest (i + 1) (errors ++ [err]) (trace ++ [.listenerClose x])
    | none => closeListeners ret rest (i + 1) errors (trace ++ [.listenerClose x])

/-- The `switch len(errors)` of `Close` and the final `return` (lines 65-71). -/
def closeSwitch (errors : List NetErr) : Option GoError :=
  match errors with
  | [] => none
  | [e] => some (.underlying e)
  | _ => some (.multiError errors)

/-- A run of `Close`: the listener afterwards, the calls made, and the value
returned or the panic raised. -/
structure CloseRun where
  l : Listener
  trace : List Event
  result : Except Panic (Option GoError)

/-- `Close` (lines 56-72). -/
def Listener.Close (l : Listener) (ret : Nat → Option NetErr) : CloseRun :=
  match closeChan l with
  | .error p => { l := l, trace := [], result := .error p }
  | .ok l1 =>
    let (errors, trace) := closeListeners ret l1.listeners 0 [] [.closeChan]
    { l := l1, trace := trace, result := .ok (closeSwitch errors) }

/-- The case taken by the `select` of `Accept` (line 116): a receive from `conns`
yielding `acceptResult, ok`, or a receive from the closed channel `closing`. -/
inductive AcceptCase where
  | conns (acceptResult : acceptResults) (ok : Bool)
  | closing
deriving DecidableEq

/-- `Accept` (lines 115-125), given the case its `select` took. -/
def Listener.Accept : AcceptCase → Option Conn × Option GoError
  | .conns acceptResult ok =>
    if ok then (acceptResult.conn, acceptResult.err.map .underlying)
    else (none, some (.errorf "closed conn channel"))
  | .closing => (none, some (.errorf "listener is closed"))

/-- The shutdown branch of `loop` (lines 104-108): the calls it makes, and whether
`r.conn.Close()` was a method call on a nil interface. -/
def shutdownBranch (r : acceptResults) : List Event × Bool :=
  match r.err with
  | none => ([.connClose r.conn], r.conn.isNone)
  | some _ => ([], false)

/-! ## The concurrent system -/

/-- Where a call of `Accept` stands: parked in its `select` (line 116), or returned
with the case its `select` took. -/
inductive AcceptPC where
  | blocked
  | returned (sel : AcceptCase)
deriving DecidableEq

/-- Where the call of `Close` stands: not yet made, past `close(l.closing)` (line 57),
or returned. -/
inductive ClosePC where
  | notCalled
  | fired
  | returned (err : Option GoError)
deriving DecidableEq

/-- The program state: the `Listener`, the goroutines running `loop`, the calls of
`Accept` in the order in which they evaluated their `select`, and the call of `Close`.
A goroutine parked in a `select` is queued on the channels of all its cases, so the
program counters `blocked` are the wait queues of `conns` and `closing`.
`accepted` and `dropped` are history variables: the results returned so far by the
underlying `Accept` calls, and the results disposed of by a shutdown branch. -/
structure System where
  l : Listener
  loops : List Loop
  accepts : List AcceptPC
  closePC : ClosePC
  panicked : Bool
  trace : List Event
  accepted : List acceptResults
  dropped : List acceptResults
deriving DecidableEq

/-- The state right after a successful `New`. -/
def System.init (n : Listener) (spawned : List Loop) : System :=
  { l := n, loops := spawned, accepts := [], closePC := .notCalled, panicked := false,
    trace := [], accepted := [], dropped := [] }

/-- How the `select` of `loop` (line 102) is resolved when it is evaluated: the send
on `conns` proceeds with the parked receiver `j`, the receive from `closing`
proceeds, or no case can proceed and the goroutine parks. -/
inductive LoopChoice where
  | send (j : Nat)
  | closing
  | block
deriving DecidableEq

/-- How the `select` of `Accept` (line 116) is resolved when it is evaluated: the
receive from `conns` proceeds with the parked sender `i`, the receive from `closing`
proceeds, or no case can proceed and the caller parks. -/
inductive AcceptChoice where
  | recv (i : Nat)
  | closing
  | block
deriving DecidableEq

/-- The atomic actions of the program.
* `loopAccept i conn err c`: in goroutine `i`, `listener.Accept()` returns
  `(conn, err)` (line 97) and the `select` of line 102 is evaluated, resolved as `c`;
* `loopShutdown i`: goroutine `i` runs the shutdown branch (lines 105-108);
* `accept c`: a new call of `Accept` evaluates its `select`, resolved as `c`;
* `closeFire`: a call of `Close` executes `close(l.closing)` (line 57);
* `closeFinish ret`: that call runs lines 58-71, the underlying `Close` calls
  returning `ret 0`, `ret 1`, ... -/
inductive Action where
  | loopAccept (i : Nat) (conn : Option Conn) (err : Option NetErr) (c : LoopChoice)
  | loopShutdown (i : Nat)
  | accept (c : AcceptChoice)
  | closeFire
  | closeFinish (ret : Nat → Option NetErr)

/-- Whether a loop is parked in its `select`. -/
def Loop.isBlocked (lp : Loop) : Bool :=
  match lp.pc with
  | .blocked _ => true
  | _ => false

/-- Whether a call of `Accept` is parked in its `select`. -/
def AcceptPC.isBlocked : AcceptPC → Bool
  | .blocked => true
  | .returned _ => false

/-- Closing `closing` wakes a loop parked in its `select` on the case `<-l.closing`. -/
def Loop.wake (lp : Loop) : Loop :=
  match lp.pc with
  | .blocked r => { lp with pc := .shutdown r }
  | _ => lp

/-- Closing `closing` wakes a call of `Accept` parked in its `select` on the case
`<-l.closing`. -/
def AcceptPC.wake : AcceptPC → AcceptPC
  | .blocked => .returned .closing
  | a => a

/-- One atomic action; `none` when the action is not enabled.  A `select` takes a
case that can proceed when there is one and parks only when there is none; a send
on the unbuffered `conns` can proceed when a receiver is parked on it, a receive
from it when a sender is parked on it, and a receive from `closing` when it is
closed.  Closing `closing` lets the case `<-l.closing` of every parked `select`
proceed, which takes the parked goroutine off `conns` as well.  After a handoff the
loop is back at line 97.  A panic ends the program. -/
def step (s : System) (a : Action) : Option System :=
  if s.panicked then none else
  match a with
  | .loopAccept i conn err c =>
    match s.loops[i]? with
    | some ⟨x, .accepting⟩ =>
      let r : acceptResults := { conn := conn, err := err }
      match c with
      | .send j =>
        match s.accepts[j]? with
        | some .blocked =>
          some { s with accepts := s.accepts.set j (.returned (.conns r true)),
                        accepted := s.accepted ++ [r] }
        | _ => none
      | .closing =>
        if s.l.closing then
          some { s with loops := s.loops.set i ⟨x, .shutdown r⟩,
                        accepted := s.accepted ++ [r] }
        else none
      | .block =>
        if s.l.closing || s.accepts.any AcceptPC.isBlocked then none
        else some { s with loops := s.loops.set i ⟨x, .blocked r⟩,
                           accepted := s.accepted ++ [r] }
    | _ => none
  | .loopShutdown i =>
    match s.loops[i]? with
    | some ⟨x, .shutdown r⟩ =>
      some { s with loops := s.loops.set i ⟨x, .exited⟩,
                    trace := s.trace ++ (shutdownBranch r).1,
                    panicked := (shutdownBranch r).2,
                    dropped := s.dropped ++ [r] }
    | _ => none
  | .accept c =>
    match c with
    | .recv i =>
      match s.loops[i]? with
      | some ⟨x, .blocked r⟩ =>
        some { s with loops := s.loops.set i ⟨x, .accepting⟩,
                      accepts := s.accepts ++ [.returned (.conns r true)] }
      | _ => none
    | .closing =>
      if s.l.closing then some { s with accepts := s.accepts ++ [.returned .closing] }
      else none
    | .block =>
      if s.l.closing || s.loops.any Loop.isBlocked then none
      else some { s with accepts := s.accepts ++ [.blocked] }
  | .closeFire =>
    match closeChan s.l with
    | .error _ => some { s with panicked := true }
    | .ok l1 =>
      some { s with l := l1, loops := s.loops.map Loop.wake,
                    accepts := s.accepts.map AcceptPC.wake,
                    closePC := .fired, trace := s.trace ++ [.closeChan] }
  | .closeFinish ret =>
    match s.closePC with
    | .fired =>
      let (errors, trace) := closeListeners ret s.l.listeners 0 [] s.trace
      some { s with closePC := .returned (closeSwitch errors), trace := trace }
    | _ => none

/-- Runs a sequence of actions; `none` when one of them is not enabled. -/
def run (s : System) : List Action → Option System
  | [] => some s
  | a :: as => (step s a).bind (fun s1 => run s1 as)

/-- The states the program can reach from `s0`. -/
def Reachable (s0 s : System) : Prop := ∃ as, run s0 as = some s

/-- The value a returned call of `Accept` returned. -/
def AcceptPC.result : AcceptPC → Option (Option Conn × Option GoError)
  | .blocked => none
  | .returned sel => some (Listener.Accept sel)

/-- The result a loop holds between its `listener.Accept()` and the end of its
`select`. -/
def Loop.pending (lp : Loop) : Option acceptResults :=
  match lp.pc with
  | .blocked r => some r
  | .shutdown r => some r
  | _ => none

/-- The result a call of `Accept` received from `conns`. -/
def AcceptPC.received : AcceptPC → Option acceptResults
  | .returned (.conns r _) => some r
  | _ => none

/-- The results handed to calls of `Accept`, by caller. -/
def System.delivered (s : System) : List acceptResults := s.accepts.filterMap AcceptPC.received

/-- The results held by the loops. -/
def System.pending (s : System) : List acceptResults := s.loops.filterMap Loop.pending

/-- The function `step` read as a relation, one rule for each way an action is
enabled (`step_iff` proves them equal). -/
inductive Step : System → Action → System → Prop where
  | loopSend (s : System) (i j : Nat) (conn : Option Conn) (err : Option NetErr)
      (x : NetListener) (hp : s.panicked = false)
      (hi : s.loops[i]? = some ⟨x, .accepting⟩) (hj : s.accepts[j]? = some .blocked) :
      Step s (.loopAccept i conn err (.send j))
        { s with accepts := s.accepts.set j (.returned (.conns ⟨conn, err⟩ true)),
                 accepted := s.accepted ++ [⟨conn, err⟩] }
  | loopClosing (s : System) (i : Nat) (conn : Option Conn) (err : Option NetErr)
      (x : NetListener) (hp : s.panicked = false)
      (hi : s.loops[i]? = some ⟨x, .accepting⟩) (hc : s.l.closing = true) :
      Step s (.loopAccept i conn err .closing)
        { s with loops := s.loops.set i ⟨x, .shutdown ⟨conn, err⟩⟩,
                 accepted := s.accepted ++ [⟨conn, err⟩] }
  | loopBlock (s : System) (i : Nat) (conn : Option Conn) (err : Option NetErr)
      (x : NetListener) (hp : s.panicked = false)
      (hi : s.loops[i]? = some ⟨x, .accepting⟩) (hc : s.l.closing = false)
      (hb : s.accepts.any AcceptPC.isBlocked = false) :
      Step s (.loopAccept i conn err .block)
        { s with loops := s.loops.set i ⟨x, .blocked ⟨conn, err⟩⟩,
                 accepted := s.accepted ++ [⟨conn, err⟩] }
  | loopShutdown (s : System) (i : Nat) (x : NetListener) (r : acceptResults)
      (hp : s.panicked = false) (hi : s.loops[i]? = some ⟨x, .shutdown r⟩) :
      Step s (.loopShutdown i)
        { s with loops := s.loops.set i ⟨x, .exited⟩,
                 trace := s.trace ++ (shutdownBranch r).1,
                 panicked := (shutdownBranch r).2,
                 dropped := s.dropped ++ [r] }
  | acceptRecv (s : System) (i : Nat) (x : NetListener) (r : acceptResults)
      (hp : s.panicked = false) (hi : s.loops[i]? = some ⟨x, .blocked r⟩) :
      Step s (.accept (.recv i))
        { s with loops := s.loops.set i ⟨x, .accepting⟩,
                 accepts := s.accepts ++ [.returned (.conns r true)] }
  | acceptClosing (s : System) (hp : s.panicked = false) (hc : s.l.closing = true) :
      Step s (.accept .closing) { s with accepts := s.accepts ++ [.returned .closing] }
  | acceptBlock (s : System) (hp : s.panicked = false) (hc : s.l.closing = false)
      (hb : s.loops.any Loop.isBlocked = false) :
      Step s (.accept .block) { s with accepts := s.accepts ++ [.blocked] }
  | closePanic (s : System) (hp : s.panicked = false) (hc : s.l.closing = true) :
      Step s .closeFire { s with panicked := true }
  | closeFire (s : System) (hp : s.panicked = false) (hc : s.l.closing = false) :
      Step s .closeFire
        { s with l := { s.l with closing := true }, loops := s.loops.map Loop.wake,
                 accepts := s.accepts.map AcceptPC.wake,
                 closePC := .fired, trace := s.trace ++ [.closeChan] }
  | closeFinish (s : System) (ret : Nat → Option NetErr) (hp : s.panicked = false)
      (hf : s.closePC = .fired) :
      Step s (.closeFinish ret)
        { s with closePC := .returned (closeSwitch
                   (closeListeners ret s.l.listeners 0 [] s.trace).1),
                 trace := (closeListeners ret s.l.listeners 0 [] s.trace).2 }

/-- The invariant of the program started by `New ls`. -/
structure Inv (ls : List NetListener) (s : System) : Prop where
  /-- The slice `listeners` is the one given to `New`. -/
  listeners : s.l.listeners = ls
  /-- There is one loop for each listener, in order. -/
  loopsOf : s.loops.map Loop.listener = ls
  /-- Once `closing` is closed no loop is parked in its `select`. -/
  closedLoops : s.l.closing = true → ∀ lp ∈ s.loops, lp.isBlocked = false
  /-- Once `closing` is closed no call of `Accept` is parked in its `select`. -/
  closedAccepts : s.l.closing = true → ∀ a ∈ s.accepts, a.isBlocked = false
  /-- A call of `Close` that got past line 57 has closed `closing`. -/
  closeCalled : s.closePC ≠ .notCalled → s.l.closing = true
  /-- While `closing` is open no loop has taken its shutdown branch. -/
  openLoops : s.l.closing = false →
    s.dropped = [] ∧ ∀ lp ∈ s.loops, lp.pc = .accepting ∨ ∃ r, lp.pc = .blocked r
  /-- Every accepted result is, counted with repetitions, in exactly one place:
  returned by a call of `Accept`, held by a loop, or disposed of at shutdown. -/
  conserve : ∀ r, s.accepted.count r
    = s.delivered.count r + s.pending.count r + s.dropped.count r
  /-- The channel `conns` is never closed: every receive from it has `ok = true`. -/
  recvOk : ∀ r ok, AcceptPC.returned (.conns r ok) ∈ s.accepts → ok = true

/-! ## The sequential functions -/

theorem closeListeners_eq (ret : Nat → Option NetErr) (ls : List NetListener) :
    ∀ (i : Nat) (errors : List NetErr) (trace : List Event),
      closeListeners ret ls i errors trace
        = (errors ++ (List.range' i ls.length).filterMap ret,
           trace ++ ls.map Event.listenerClose) := by
  induction ls with
  | nil => intro i errors trace; simp [closeListeners]
  | cons x rest ih =>
    intro i errors trace
    cases h : ret i with
    | none => simp [closeListeners, h, ih, List.range'_succ, List.filterMap_cons]
    | some e => simp [closeListeners, h, ih, List.range'_succ, List.filterMap_cons]

theorem new_some (ls : List NetListener) (n : Listener) (h : (New ls).n = some n) :
    ls ≠ [] ∧ n = { listeners := ls, closing := false } ∧ (New ls).err = none ∧
      (New ls).spawned = ls.map (fun x => { listener := x, pc := .accepting }) := by
  unfold New at h ⊢
  by_cases h0 : ls.length = 0
  · simp [h0] at h
  · rw [if_neg h0] at h ⊢
    exact ⟨fun hl => h0 (by simp [hl]), (Option.some.inj h).symm, rfl, rfl⟩

theorem close_fresh (ls : List NetListener) (ret : Nat → Option NetErr) :
    Listener.Close { listeners := ls, closing := false } ret
      = { l := { listeners := ls, closing := true },
          trace := Event.closeChan :: ls.map Event.listenerClose,
          result := .ok (closeSwitch ((List.range ls.length).filterMap ret)) } := by
  simp [Listener.Close, closeChan, closeListeners_eq, List.range_eq_range']

theorem closeSwitch_multi (errors es : List NetErr)
    (h : closeSwitch errors = some (.multiError es)) : es = errors ∧ 2 ≤ es.length := by
  match errors, h with
  | [], h => simp [closeSwitch] at h
  | [e], h => simp [closeSwitch] at h
  | a :: b :: t, h =>
    simp only [closeSwitch, Option.some.injEq, GoError.multiError.injEq] at h
    subst h
    exact ⟨rfl, by simp⟩

/-! ## The transition system -/

theorem Step.of_step {s : System} {a : Action} {s1 : System} (h : step s a = some s1) :
    Step s a s1 := by
  unfold step at h
  split at h
  · exact absurd h (by simp)
  · rename_i hp
    have hp : s.panicked = false := by simpa using hp
    split at h
    · split at h
      · rename_i x hi
        split at h
        · split at h
          · cases h; exact Step.loopSend s _ _ _ _ x hp hi (by assumption)
          · exact absurd h (by simp)
        · split at h
          · cases h; exact Step.loopClosing s _ _ _ x hp hi (by assumption)
          · exact absurd h (by simp)
        · split at h
          · exact absurd h (by simp)
          · rename_i hc
            simp only [Bool.or_eq_true, not_or, Bool.not_eq_true] at hc
            cases h; exact Step.loopBlock s _ _ _ x hp hi hc.1 hc.2
      · exact absurd h (by simp)
    · split at h
      · cases h; exact Step.loopShutdown s _ _ _ hp (by assumption)
      · exact absurd h (by simp)
    · split at h
      · split at h
        · cases h; exact Step.acceptRecv s _ _ _ hp (by assumption)
        · exact absurd h (by simp)
      · split at h
        · cases h; exact Step.acceptClosing s hp (by assumption)
        · exact absurd h (by simp)
      · split at h
        · exact absurd h (by simp)
        · rename_i hc
          simp only [Bool.or_eq_true, not_or, Bool.not_eq_true] at hc
          cases h; exact Step.acceptBlock s hp hc.1 hc.2
    · split at h
      · rename_i p hcl
        cases h
        refine Step.closePanic s hp ?_
        unfold closeChan at hcl
        by_contra hc
        simp [hc] at hcl
      · rename_i l1 hcl
        unfold closeChan at hcl
        by_cases hc : s.l.closing = true
        · simp [hc] at hcl
        · have hc : s.l.closing = false := by simpa using hc
          simp only [hc, Bool.false_eq_true, if_false, Except.ok.injEq] at hcl
          subst hcl
          cases h
          exact Step.closeFire s hp hc
    · split at h
      · cases h; exact Step.closeFinish s _ hp (by assumption)
      · exact absurd h (by simp)

theorem Step.to_step {s : System} {a : Action} {s1 : System} (h : Step s a s1) :
    step s a = some s1 := by
  cases h <;> simp_all [step, closeChan]

theorem step_iff (s : System) (a : Action) (s1 : System) :
    step s a = some s1 ↔ Step s a s1 :=
  ⟨Step.of_step, Step.to_step⟩

theorem count_filterMap_set {α β : Type} [DecidableEq β] (f : α → Option β) (r : β) :
    ∀ (l : List α) (i : Nat) (a b : α), l[i]? = some a →
      (List.filterMap f (l.set i b)).count r + (f a).toList.count r
        = (List.filterMap f l).count r + (f b).toList.count r := by
  intro l
  induction l with
  | nil => intro i a b h; simp at h
  | cons x xs ih =>
    intro i a b h
    cases i with
    | zero =>
      simp only [List.getElem?_cons_zero, Option.some.injEq] at h
      subst h
      cases hx : f x <;> cases hb : f b <;>
        simp [List.filterMap_cons, hx, hb, List.count_cons]
      all_goals omega
    | succ k =>
      simp only [List.getElem?_cons_succ] at h
      have := ih k a b h
      cases hx : f x <;> simp [List.filterMap_cons, hx, List.count_cons] <;> omega

theorem map_listener_set (loops : List Loop) (i : Nat) (x : NetListener) (p q : LoopPC)
    (h : loops[i]? = some ⟨x, p⟩) :
    (loops.set i ⟨x, q⟩).map Loop.listener = loops.map Loop.listener := by
  induction loops generalizing i with
  | nil => simp
  | cons y ys ih =>
    cases i with
    | zero =>
      simp only [List.getElem?_cons_zero, Option.some.injEq] at h
      subst h; simp
    | succ k =>
      simp only [List.getElem?_cons_succ] at h
      simp [ih k h]

theorem pending_wake (lp : Loop) : lp.wake.pending = lp.pending := by
  obtain ⟨x, pc⟩ := lp
  cases pc <;> rfl

theorem listener_wake (lp : Loop) : lp.wake.listener = lp.listener := by
  obtain ⟨x, pc⟩ := lp
  cases pc <;> rfl

theorem isBlocked_wake (lp : Loop) : lp.wake.isBlocked = false := by
  obtain ⟨x, pc⟩ := lp
  cases pc <;> rfl

theorem received_wake (a : AcceptPC) : a.wake.received = a.received := by
  cases a <;> rfl

theorem acceptBlocked_wake (a : AcceptPC) : a.wake.isBlocked = false := by
  cases a <;> rfl

theorem inv_init (ls : List NetListener) :
    Inv ls (System.init { listeners := ls, closing := false }
      (ls.map (fun x => { listener := x, pc := .accepting }))) := by
  refine ⟨rfl, ?_, ?_, ?_, ?_, ?_, ?_, ?_⟩
  · simp [System.init, Function.comp_def]
  · intro h; simp [System.init] at h
  · intro h; simp [System.init] at h
  · intro h; simp [System.init] at h
  · intro _
    refine ⟨rfl, ?_⟩
    intro lp hlp
    simp only [System.init, List.mem_map] at hlp
    obtain ⟨x, _, rfl⟩ := hlp
    exact Or.inl rfl
  · intro r
    have hnone : ∀ l : List NetListener,
        List.filterMap (fun _ => (none : Option acceptResults)) l = [] := by
      intro l; induction l <;> simp_all
    simp [System.init, System.delivered, System.pending, Loop.pending, List.filterMap_map,
      Function.comp_def, hnone]
  · intro r ok h; simp [System.init] at h

theorem inv_step {ls : List NetListener} {s s1 : System} {a : Action}
    (hinv : Inv ls s) (h : Step s a s1) : Inv ls s1 := by
  obtain ⟨hl, hlo, hcl, hca, hcc, hop, hcons, hok⟩ := hinv
  cases h with
  | loopSend i j conn err x hp hi hj =>
    refine ⟨hl, hlo, hcl, ?_, hcc, hop, ?_, ?_⟩
    · intro hc a ha
      rcases List.mem_or_eq_of_mem_set ha with h1 | h1
      · exact hca hc a h1
      · subst h1; rfl
    · intro r
      have h1 := count_filterMap_set AcceptPC.received r s.accepts j _
        (.returned (.conns ⟨conn, err⟩ true)) hj
      have h2 := hcons r
      simp only [System.delivered, System.pending, AcceptPC.received, Option.toList,
        List.count_nil, List.count_append, List.count_singleton] at h1 h2 ⊢
      omega
    · intro r ok ha
      rcases List.mem_or_eq_of_mem_set ha with h1 | h1
      · exact hok r ok h1
      · simp only [AcceptPC.returned.injEq, AcceptCase.conns.injEq] at h1
        exact h1.2
  | loopClosing i conn err x hp hi hc =>
    refine ⟨hl, ?_, ?_, hca, hcc, ?_, ?_, hok⟩
    · rw [← hlo]; exact map_listener_set _ _ _ _ _ hi
    · intro _ lp hlp
      rcases List.mem_or_eq_of_mem_set hlp with h1 | h1
      · exact hcl hc lp h1
      · subst h1; rfl
    · intro hc1; simp [hc] at hc1
    · intro r
      have h1 := count_filterMap_set Loop.pending r s.loops i _
        ⟨x, .shutdown ⟨conn, err⟩⟩ hi
      have h2 := hcons r
      simp only [System.delivered, System.pending, Loop.pending, Option.toList,
        List.count_nil, List.count_append, List.count_singleton] at h1 h2 ⊢
      omega
  | loopBlock i conn err x hp hi hc hb =>
    refine ⟨hl, ?_, ?_, hca, hcc, ?_, ?_, hok⟩
    · rw [← hlo]; exact map_listener_set _ _ _ _ _ hi
    · intro hc1; simp [hc] at hc1
    · intro _
      refine ⟨(hop hc).1, ?_⟩
      intro lp hlp
      rcases List.mem_or_eq_of_mem_set hlp with h1 | h1
      · exact (hop hc).2 lp h1
      · subst h1; exact Or.inr ⟨_, rfl⟩
    · intro r
      have h1 := count_filterMap_set Loop.pending r s.loops i _
        ⟨x, .blocked ⟨conn, err⟩⟩ hi
      have h2 := hcons r
      simp only [System.delivered, System.pending, Loop.pending, Option.toList,
        List.count_nil, List.count_append, List.count_singleton] at h1 h2 ⊢
      omega
  | loopShutdown i x r0 hp hi =>
    have hc : s.l.closing = true := by
      cases hcv : s.l.closing with
      | true => rfl
      | false =>
        rcases (hop hcv).2 _ (List.getElem?_mem hi) with h1 | ⟨r, h1⟩ <;> simp at h1
    refine ⟨hl, ?_, ?_, hca, hcc, ?_, ?_, hok⟩
    · rw [← hlo]; exact map_listener_set _ _ _ _ _ hi
    · intro _ lp hlp
      rcases List.mem_or_eq_of_mem_set hlp with h1 | h1
      · exact hcl hc lp h1
      · subst h1; rfl
    · intro hc1; simp [hc] at hc1
    · intro r
      have h1 := count_filterMap_set Loop.pending r s.loops i _ ⟨x, .exited⟩ hi
      have h2 := hcons r
      simp only [System.delivered, System.pending, Loop.pending, Option.toList,
        List.count_nil, List.count_append, List.count_singleton] at h1 h2 ⊢
      omega
  | acceptRecv i x r0 hp hi =>
    refine ⟨hl, ?_, ?_, ?_, hcc, ?_, ?_, ?_⟩
    · rw [← hlo]; exact map_listener_set _ _ _ _ _ hi
    · intro hc lp hlp
      rcases List.mem_or_eq_of_mem_set hlp with h1 | h1
      · exact hcl hc lp h1
      · subst h1; rfl
    · intro hc a ha
      rcases List.mem_append.mp ha with h1 | h1
      · exact hca hc a h1
      · simp only [List.mem_singleton] at h1; subst h1; rfl
    · intro hc
      refine ⟨(hop hc).1, ?_⟩
      intro lp hlp
      rcases List.mem_or_eq_of_mem_set hlp with h1 | h1
      · exact (hop hc).2 lp h1
      · subst h1; exact Or.inl rfl
    · intro r
      have h1 := count_filterMap_set Loop.pending r s.loops i _ ⟨x, .accepting⟩ hi
      have h2 := hcons r
      simp only [System.delivered, System.pending, Loop.pending, Option.toList,
        List.count_nil, List.count_append, List.count_singleton, List.filterMap_append,
        List.filterMap_cons, List.filterMap_nil, AcceptPC.received] at h1 h2 ⊢
      omega
    · intro r ok ha
      rcases List.mem_append.mp ha with h1 | h1
      · exact hok r ok h1
      · simp only [List.mem_singleton, AcceptPC.returned.injEq, AcceptCase.conns.injEq] at h1
        exact h1.2
  | acceptClosing hp hc =>
    refine ⟨hl, hlo, hcl, ?_, hcc, hop, ?_, ?_⟩
    · intro hc a ha
      rcases List.mem_append.mp ha with h1 | h1
      · exact hca hc a h1
      · simp only [List.mem_singleton] at h1; subst h1; rfl
    · intro r
      have h2 := hcons r
      simp only [System.delivered, System.pending, List.filterMap_append,
        List.filterMap_cons, List.filterMap_nil, AcceptPC.received, List.append_nil] at h2 ⊢
      omega
    · intro r ok ha
      rcases List.mem_append.mp ha with h1 | h1
      · exact hok r ok h1
      · simp at h1
  | acceptBlock hp hc hb =>
    refine ⟨hl, hlo, hcl, ?_, hcc, hop, ?_, ?_⟩
    · intro hc1; simp [hc] at hc1
    · intro r
      have h2 := hcons r
      simp only [System.delivered, System.pending, List.filterMap_append,
        List.filterMap_cons, List.filterMap_nil, AcceptPC.received, List.append_nil] at h2 ⊢
      omega
    · intro r ok ha
      rcases List.mem_append.mp ha with h1 | h1
      · exact hok r ok h1
      · simp at h1
  | closePanic hp hc => exact ⟨hl, hlo, hcl, hca, hcc, hop, hcons, hok⟩
  | closeFire hp hc =>
    refine ⟨hl, ?_, ?_, ?_, ?_, ?_, ?_, ?_⟩
    · rw [← hlo]; simp [Function.comp_def, listener_wake]
    · intro _ lp hlp
      obtain ⟨lp0, _, rfl⟩ := List.mem_map.mp hlp
      exact isBlocked_wake lp0
    · intro _ a ha
      obtain ⟨a0, _, rfl⟩ := List.mem_map.mp ha
      exact acceptBlocked_wake a0
    · intro _; rfl
    · intro hc1; simp at hc1
    · intro r
      have h2 := hcons r
      simp only [System.delivered, System.pending, List.filterMap_map, Function.comp_def,
        pending_wake, received_wake] at h2 ⊢
      exact h2
    · intro r ok ha
      obtain ⟨a0, ha0, h1⟩ := List.mem_map.mp ha
      cases a0 with
      | blocked => simp [AcceptPC.wake] at h1
      | returned sel =>
        simp only [AcceptPC.wake, AcceptPC.returned.injEq] at h1
        subst h1
        exact hok r ok ha0
  | closeFinish ret hp hf =>
    refine ⟨hl, hlo, hcl, hca, ?_, hop, hcons, hok⟩
    intro _
    exact hcc (by simp [hf])

theorem inv_run {ls : List NetListener} (as : List Action) :
    ∀ {s s1 : System}, Inv ls s → run s as = some s1 → Inv ls s1 := by
  induction as with
  | nil =>
    intro s s1 hinv h
    unfold run at h
    cases h; exact hinv
  | cons a as ih =>
    intro s s1 hinv h
    unfold run at h
    cases hs : step s a with
    | none => simp [hs] at h
    | some s2 =>
      simp only [hs, Option.some_bind] at h
      exact ih (inv_step hinv (Step.of_step hs)) h

theorem inv_reachable {ls : List NetListener} {n : Listener} (hnew : (New ls).n = some n)
    {s : System} (hr : Reachable (System.init n (New ls).spawned) s) : Inv ls s := by
  obtain ⟨_, hn, _, hsp⟩ := new_some ls n hnew
  obtain ⟨as, has⟩ := hr
  rw [hn, hsp] at has
  exact inv_run as (inv_init ls) has

theorem reachable_refl (s : System) : Reachable s s := ⟨[], rfl⟩

theorem run_append (as bs : List Action) :
    ∀ s : System, run s (as ++ bs) = (run s as).bind (fun s1 => run s1 bs) := by
  induction as with
  | nil => intro s; simp [run]
  | cons a as ih =>
    intro s
    simp only [List.cons_append, run]
    cases step s a with
    | none => simp
    | some s2 => simp [ih]

theorem reachable_run {s0 s s1 : System} (as : List Action) (hr : Reachable s0 s)
    (h : run s as = some s1) : Reachable s0 s1 := by
  obtain ⟨bs, hbs⟩ := hr
  exact ⟨bs ++ as, by simp [run_append, hbs, h]⟩

theorem reachable_step {s0 s s1 : System} (a : Action) (hr : Reachable s0 s)
    (h : step s a = some s1) : Reachable s0 s1 :=
  reachable_run [a] hr (by simp [run, h])

theorem exited_of_wake (lp : Loop) (x : NetListener) (h : lp.wake = ⟨x, .exited⟩) :
    lp = ⟨x, .exited⟩ := by
  obtain ⟨y, pc⟩ := lp
  cases pc <;> simp_all [Loop.wake]

theorem exited_of_set (loops : List Loop) (k i : Nat) (x y : NetListener) (pc : LoopPC)
    (hpc : pc ≠ .exited) (h : (loops.set k ⟨y, pc⟩)[i]? = some ⟨x, .exited⟩) :
    loops[i]? = some ⟨x, .exited⟩ := by
  rw [List.getElem?_set] at h
  by_cases hki : k = i
  · rw [if_pos hki] at h
    split at h
    · simp only [Option.some.injEq, Loop.mk.injEq] at h
      exact absurd h.2 hpc
    · exact absurd h (by simp)
  · rw [if_neg hki] at h
    exact h

theorem exit_only_by_shutdown {s s1 : System} {a : Action} (h : Step s a s1) (i : Nat)
    (x : NetListener) (hi : s1.loops[i]? = some ⟨x, .exited⟩) :
    s.loops[i]? = some ⟨x, .exited⟩ ∨
      (a = .loopShutdown i ∧ ∃ r, s.loops[i]? = some ⟨x, .shutdown r⟩) := by
  cases h with
  | loopSend => exact Or.inl hi
  | loopClosing k conn err y hp hk hc => exact Or.inl (exited_of_set _ _ _ _ _ _ (by simp) hi)
  | loopBlock k conn err y hp hk hc hb => exact Or.inl (exited_of_set _ _ _ _ _ _ (by simp) hi)
  | loopShutdown k y r hp hk =>
    by_cases hki : k = i
    · subst hki
      have hlt : k < s.loops.length := by
        by_contra hge
        rw [List.getElem?_eq_none (by omega)] at hk
        exact absurd hk (by simp)
      simp only [List.getElem?_set, hlt, if_true, Option.some.injEq, Loop.mk.injEq] at hi
      obtain ⟨hxy, _⟩ := hi
      subst hxy
      exact Or.inr ⟨rfl, r, hk⟩
    · left
      simpa [List.getElem?_set, hki] using hi
  | acceptRecv k y r hp hk => exact Or.inl (exited_of_set _ _ _ _ _ _ (by simp) hi)
  | acceptClosing => exact Or.inl hi
  | acceptBlock => exact Or.inl hi
  | closePanic => exact Or.inl hi
  | closeFire hp hc =>
    left
    simp only [List.getElem?_map] at hi
    cases hlp : s.loops[i]? with
    | none => simp [hlp] at hi
    | some lp =>
      simp only [hlp, Option.map_some', Option.some.injEq] at hi
      rw [exited_of_wake lp x hi]
  | closeFinish => exact Or.inl hi


theorem closed_step {ls : List NetListener} {s s1 : System} {a : Action} (hinv : Inv ls s)
    (hc : s.l.closing = true) (h : Step s a s1) :
    s1.l.closing = true ∧
      (s1.accepts = s.accepts ∨ s1.accepts = s.accepts ++ [.returned .closing]) := by
  cases h with
  | loopSend i j conn err x hp hi hj =>
    exact absurd (hinv.closedAccepts hc _ (List.getElem?_mem hj)) (by simp [AcceptPC.isBlocked])
  | loopClosing => exact ⟨hc, Or.inl rfl⟩
  | loopBlock i conn err x hp hi hc1 hb => simp [hc] at hc1
  | loopShutdown => exact ⟨hc, Or.inl rfl⟩
  | acceptRecv i x r hp hi =>
    exact absurd (hinv.closedLoops hc _ (List.getElem?_mem hi)) (by simp [Loop.isBlocked])
  | acceptClosing => exact ⟨hc, Or.inr rfl⟩
  | acceptBlock hp hc1 hb => simp [hc] at hc1
  | closePanic => exact ⟨hc, Or.inl rfl⟩
  | closeFire hp hc1 => simp [hc] at hc1
  | closeFinish => exact ⟨hc, Or.inl rfl⟩

theorem closed_run {ls : List NetListener} (as : List Action) :
    ∀ {s s1 : System}, Inv ls s → s.l.closing = true → run s as = some s1 →
      s1.l.closing = true ∧
        ∃ k, s1.accepts = s.accepts ++ List.replicate k (.returned .closing) := by
  induction as with
  | nil =>
    intro s s1 _ hc h
    unfold run at h
    cases h
    exact ⟨hc, 0, by simp⟩
  | cons a as ih =>
    intro s s1 hinv hc h
    unfold run at h
    cases hs : step s a with
    | none => simp [hs] at h
    | some s2 =>
      simp only [hs, Option.some_bind] at h
      have hst := Step.of_step hs
      obtain ⟨hc2, hacc⟩ := closed_step hinv hc hst
      obtain ⟨hc1, k, hk⟩ := ih (inv_step hinv hst) hc2 h
      refine ⟨hc1, ?_⟩
      rcases hacc with h2 | h2
      · exact ⟨k, by rw [hk, h2]⟩
      · refine ⟨k + 1, ?_⟩
        rw [hk, h2, List.replicate_succ, List.append_assoc]
        rfl

theorem mem_accepted_of_received {ls : List NetListener} {s : System} (hinv : Inv ls s)
    (a : AcceptPC) (ha : a ∈ s.accepts) (r : acceptResults) (hr : a.received = some r) :
    r ∈ s.accepted := by
  have h1 : r ∈ s.delivered := List.mem_filterMap.mpr ⟨a, ha, hr⟩
  have h2 := List.count_pos_iff.mpr h1
  have h3 := hinv.conserve r
  exact List.count_pos_iff.mp (by omega)

/-- The states in which every loop has exited and no call of `Accept` has received
anything stay so. -/
theorem dead_step {s s1 : System} {a : Action}
    (hl : ∀ lp ∈ s.loops, lp.pc = .exited) (ha : ∀ a ∈ s.accepts, a.received = none)
    (h : Step s a s1) :
    (∀ lp ∈ s1.loops, lp.pc = .exited) ∧ (∀ a ∈ s1.accepts, a.received = none) := by
  cases h with
  | loopSend i j conn err x hp hi hj => exact absurd (hl _ (List.getElem?_mem hi)) (by simp)
  | loopClosing i conn err x hp hi hc => exact absurd (hl _ (List.getElem?_mem hi)) (by simp)
  | loopBlock i conn err x hp hi hc hb => exact absurd (hl _ (List.getElem?_mem hi)) (by simp)
  | loopShutdown i x r hp hi => exact absurd (hl _ (List.getElem?_mem hi)) (by simp)
  | acceptRecv i x r hp hi => exact absurd (hl _ (List.getElem?_mem hi)) (by simp)
  | acceptClosing =>
    refine ⟨hl, ?_⟩
    intro a h1
    rcases List.mem_append.mp h1 with h2 | h2
    · exact ha a h2
    · simp only [List.mem_singleton] at h2; subst h2; rfl
  | acceptBlock =>
    refine ⟨hl, ?_⟩
    intro a h1
    rcases List.mem_append.mp h1 with h2 | h2
    · exact ha a h2
    · simp only [List.mem_singleton] at h2; subst h2; rfl
  | closePanic => exact ⟨hl, ha⟩
  | closeFire hp hc =>
    constructor
    · intro lp h1
      obtain ⟨lp0, h2, rfl⟩ := List.mem_map.mp h1
      have h3 := hl lp0 h2
      obtain ⟨y, pc⟩ := lp0
      simp only at h3
      subst h3; rfl
    · intro a h1
      obtain ⟨a0, h2, rfl⟩ := List.mem_map.mp h1
      rw [received_wake]; exact ha a0 h2
  | closeFinish => exact ⟨hl, ha⟩

theorem dead_run (as : List Action) :
    ∀ {s s1 : System}, (∀ lp ∈ s.loops, lp.pc = .exited) →
      (∀ a ∈ s.accepts, a.received = none) → run s as = some s1 →
      ∀ a ∈ s1.accepts, a.received = none := by
  induction as with
  | nil =>
    intro s s1 _ ha h
    unfold run at h
    cases h
    exact ha
  | cons a as ih =>
    intro s s1 hl ha h
    unfold run at h
    cases hs : step s a with
    | none => simp [hs] at h
    | some s2 =>
      simp only [hs, Option.some_bind] at h
      obtain ⟨hl2, ha2⟩ := dead_step hl ha (Step.of_step hs)
      exact ih hl2 ha2 h


theorem lt_of_getElem? {α : Type} {l : List α} {i : Nat} {a : α} (h : l[i]? = some a) :
    i < l.length := by
  by_contra hge
  rw [List.getElem?_eq_none (by omega)] at h
  exact absurd h (by simp)

/-- What the `select` of a loop does with the result `(conn, err)` just accepted,
case by case: the result is recorded as accepted and never dropped; a send hands it
to the parked caller `j` and leaves the loop inside `listener.Accept()`; parking
needs an open `closing` and no parked caller and leaves the loop holding the result;
the shutdown case needs a closed `closing`. -/
theorem loopAccept_outcome {s s1 : System} {i : Nat} {conn : Option Conn}
    {err : Option NetErr} {c : LoopChoice} (h : Step s (.loopAccept i conn err c) s1) :
    ∃ x, s.loops[i]? = some ⟨x, .accepting⟩ ∧
      s1.accepted = s.accepted ++ [⟨conn, err⟩] ∧ s1.dropped = s.dropped ∧
      (∀ j, c = .send j → s.accepts[j]? = some .blocked ∧
        s1.loops[i]? = some ⟨x, .accepting⟩ ∧
        s1.accepts[j]? = some (.returned (.conns ⟨conn, err⟩ true)) ∧
        s1.accepts.length = s.accepts.length) ∧
      (c = .block → s.l.closing = false ∧ s.accepts.any AcceptPC.isBlocked = false ∧
        s1.loops[i]? = some ⟨x, .blocked ⟨conn, err⟩⟩ ∧ s1.accepts = s.accepts) ∧
      (c = .closing → s.l.closing = true ∧
        s1.loops[i]? = some ⟨x, .shutdown ⟨conn, err⟩⟩ ∧ s1.accepts = s.accepts) := by
  cases h with
  | loopSend _ j _ _ x hp hi hj =>
    refine ⟨x, hi, rfl, rfl, ?_, by simp, by simp⟩
    intro j1 hj1
    simp only [LoopChoice.send.injEq] at hj1
    subst hj1
    exact ⟨hj, hi, by simp [List.getElem?_set, lt_of_getElem? hj], by simp⟩
  | loopClosing _ _ _ x hp hi hc =>
    refine ⟨x, hi, rfl, rfl, by simp, by simp, ?_⟩
    intro _
    exact ⟨hc, by simp [List.getElem?_set, lt_of_getElem? hi], rfl⟩
  | loopBlock _ _ _ x hp hi hc hb =>
    refine ⟨x, hi, rfl, rfl, by simp, ?_, by simp⟩
    intro _
    exact ⟨hc, hb, by simp [List.getElem?_set, lt_of_getElem? hi], rfl⟩

/-- A loop whose `listener.Accept()` returns while a caller is parked in `Accept`
cannot park: its send to that caller is enabled and hands over exactly the result. -/
theorem send_to_parked {s : System} (hp : s.panicked = false) {i j : Nat}
    {x : NetListener} (conn : Option Conn) (err : Option NetErr)
    (hi : s.loops[i]? = some ⟨x, .accepting⟩) (hj : s.accepts[j]? = some .blocked) :
    step s (.loopAccept i conn err .block) = none ∧
    ∃ s1, step s (.loopAccept i conn err (.send j)) = some s1 ∧
      s1.loops[i]? = some ⟨x, .accepting⟩ ∧
      s1.accepts[j]? = some (.returned (.conns ⟨conn, err⟩ true)) := by
  have hb : s.accepts.any AcceptPC.isBlocked = true :=
    List.any_eq_true.mpr ⟨_, List.getElem?_mem hj, rfl⟩
  refine ⟨by simp [step, hp, hi, hb], _,
    (Step.loopSend s i j conn err x hp hi hj).to_step, hi, ?_⟩
  simp [List.getElem?_set, lt_of_getElem? hj]

theorem never_both_step {s s1 : System} {a : Action}
    (hnb : ∀ lp ∈ s.loops, ∀ b ∈ s.accepts, lp.isBlocked = true → b.isBlocked = false)
    (h : Step s a s1) :
    ∀ lp ∈ s1.loops, ∀ b ∈ s1.accepts, lp.isBlocked = true → b.isBlocked = false := by
  cases h with
  | loopSend i j conn err x hp hi hj =>
    intro lp hlp b hb hlb
    rcases List.mem_or_eq_of_mem_set hb with h1 | h1
    · exact hnb lp hlp b h1 hlb
    · subst h1; rfl
  | loopClosing i conn err x hp hi hc =>
    intro lp hlp b hb hlb
    rcases List.mem_or_eq_of_mem_set hlp with h1 | h1
    · exact hnb lp h1 b hb hlb
    · subst h1; simp [Loop.isBlocked] at hlb
  | loopBlock i conn err x hp hi hc hbl =>
    intro lp hlp b hb hlb
    have := List.any_eq_false.mp hbl b hb
    simpa using this
  | loopShutdown i x r hp hi =>
    intro lp hlp b hb hlb
    rcases List.mem_or_eq_of_mem_set hlp with h1 | h1
    · exact hnb lp h1 b hb hlb
    · subst h1; simp [Loop.isBlocked] at hlb
  | acceptRecv i x r hp hi =>
    intro lp hlp b hb hlb
    rcases List.mem_append.mp hb with h2 | h2
    · rcases List.mem_or_eq_of_mem_set hlp with h1 | h1
      · exact hnb lp h1 b h2 hlb
      · subst h1; simp [Loop.isBlocked] at hlb
    · simp only [List.mem_singleton] at h2; subst h2; rfl
  | acceptClosing hp hc =>
    intro lp hlp b hb hlb
    rcases List.mem_append.mp hb with h2 | h2
    · exact hnb lp hlp b h2 hlb
    · simp only [List.mem_singleton] at h2; subst h2; rfl
  | acceptBlock hp hc hbl =>
    intro lp hlp b hb hlb
    have := List.any_eq_false.mp hbl lp hlp
    exact absurd hlb this
  | closePanic => exact hnb
  | closeFire hp hc =>
    intro lp hlp b hb hlb
    obtain ⟨lp0, _, rfl⟩ := List.mem_map.mp hlp
    rw [isBlocked_wake] at hlb
    exact absurd hlb (by simp)
  | closeFinish => exact hnb

theorem never_both_run (as : List Action) :
    ∀ {s s1 : System},
      (∀ lp ∈ s.loops, ∀ b ∈ s.accepts, lp.isBlocked = true → b.isBlocked = false) →
      run s as = some s1 →
      ∀ lp ∈ s1.loops, ∀ b ∈ s1.accepts, lp.isBlocked = true → b.isBlocked = false := by
  induction as with
  | nil =>
    intro s s1 hnb h
    unfold run at h
    cases h
    exact hnb
  | cons a as ih =>
    intro s s1 hnb h
    unfold run at h
    cases hs : step s a with
    | none => simp [hs] at h
    | some s2 =>
      simp only [hs, Option.some_bind] at h
      exact ih (never_both_step hnb (Step.of_step hs)) h

theorem never_both_reachable {n : Listener} {spawned : List Loop} {s : System}
    (hr : Reachable (System.init n spawned) s) :
    ∀ lp ∈ s.loops, ∀ b ∈ s.accepts, lp.isBlocked = true → b.isBlocked = false := by
  obtain ⟨as, has⟩ := hr
  refine never_both_run as ?_ has
  intro lp _ b hb
  simp [System.init] at hb


/-! ## The claims -/

/-- C1: the first `Close` of a listener built by `New` returns nil when no underlying
`Close` failed, the underlying error itself when exactly one failed, and a
`MultiError` holding exactly the failures in listener order when two or more failed;
a `MultiError` built by `Close` has at least two entries. -/
theorem Close_result (ls : List NetListener) (n : Listener) (hnew : (New ls).n = some n)
    (ret : Nat → Option NetErr) :
    ((List.range ls.length).filterMap ret = [] → (n.Close ret).result = .ok none) ∧
    (∀ e, (List.range ls.length).filterMap ret = [e] →
      (n.Close ret).result = .ok (some (.underlying e))) ∧
    (2 ≤ ((List.range ls.length).filterMap ret).length →
      (n.Close ret).result = .ok (some (.multiError ((List.range ls.length).filterMap ret)))) ∧
    (∀ es, (n.Close ret).result = .ok (some (.multiError es)) →
      es = (List.range ls.length).filterMap ret ∧ 2 ≤ es.length) := by
  obtain ⟨_, hn, _, _⟩ := new_some ls n hnew
  subst hn
  rw [close_fresh]
  refine ⟨?_, ?_, ?_, ?_⟩
  · intro h; simp [h, closeSwitch]
  · intro e h; simp [h, closeSwitch]
  · intro h
    match hf : (List.range ls.length).filterMap ret, h with
    | a :: b :: t, _ => simp [closeSwitch]
  · intro es h
    simp only [Except.ok.injEq] at h
    exact closeSwitch_multi _ es h

/-- C1 at three listeners of which the first and the last fail to close. -/
theorem Close_result_witness :
    (Listener.Close { listeners := [⟨1, ⟨10⟩⟩, ⟨2, ⟨20⟩⟩, ⟨3, ⟨30⟩⟩], closing := false }
        (fun i => if i = 1 then none else some ⟨i⟩)).result
      = .ok (some (.multiError [⟨0⟩, ⟨2⟩])) :=
  (Close_result [⟨1, ⟨10⟩⟩, ⟨2, ⟨20⟩⟩, ⟨3, ⟨30⟩⟩] _ rfl
    (fun i => if i = 1 then none else some ⟨i⟩)).2.2.1 (by decide)

/-- C2: the first `Close` of a listener built by `New` closes the channel `closing`
first and then calls `Close` on every underlying listener exactly once, in the order
in which they were given to `New`, whatever the underlying calls return. -/
theorem Close_trace (ls : List NetListener) (n : Listener) (hnew : (New ls).n = some n)
    (ret : Nat → Option NetErr) :
    (n.Close ret).trace = Event.closeChan :: ls.map Event.listenerClose ∧
    (n.Close ret).l.closing = true := by
  obtain ⟨_, hn, _, _⟩ := new_some ls n hnew
  subst hn
  rw [close_fresh]
  exact ⟨rfl, rfl⟩

/-- C2 at two listeners whose `Close` both fail. -/
theorem Close_trace_witness :
    (Listener.Close { listeners := [⟨1, ⟨10⟩⟩, ⟨2, ⟨20⟩⟩], closing := false }
        (fun i => some ⟨i⟩)).trace
      = [.closeChan, .listenerClose ⟨1, ⟨10⟩⟩, .listenerClose ⟨2, ⟨20⟩⟩] :=
  (Close_trace [⟨1, ⟨10⟩⟩, ⟨2, ⟨20⟩⟩] _ rfl (fun i => some ⟨i⟩)).1

/-- C3: `New` with no listener returns a nil `Listener` and a non-nil error and starts
no loop; `New` with at least one listener returns a `Listener` holding exactly the
given listeners, a nil error, and starts one loop for each listener, in order. -/
theorem New_spec (ls : List NetListener) :
    (ls = [] → (New ls).n = none ∧ (New ls).err ≠ none ∧ (New ls).spawned = []) ∧
    (ls ≠ [] → ∃ n, (New ls).n = some n ∧ (New ls).err = none ∧ n.listeners = ls ∧
      n.closing = false ∧ (New ls).spawned.length = ls.length ∧
      (New ls).spawned.map Loop.listener = ls ∧
      ∀ lp ∈ (New ls).spawned, lp.pc = .accepting) := by
  constructor
  · intro h; subst h; simp [New]
  · intro h
    have h0 : ls.length ≠ 0 := fun h0 => h (List.length_eq_zero.mp h0)
    refine ⟨{ listeners := ls, closing := false }, ?_⟩
    unfold New
    rw [if_neg h0]
    refine ⟨rfl, rfl, rfl, rfl, by simp, by simp [Function.comp_def], ?_⟩
    intro lp hlp
    obtain ⟨x, _, rfl⟩ := List.mem_map.mp hlp
    rfl

/-- C7: a second `Close` panics at `close(l.closing)`, before any underlying `Close`
is called again: as a function, `Close` on the listener left by a first `Close`
panics with no call made; in the program, once a call of `Close` is past line 57,
another call panics at line 57 and adds nothing to the trace. -/
theorem Close_twice_panics (ls : List NetListener) (n : Listener)
    (hnew : (New ls).n = some n) (ret ret1 : Nat → Option NetErr) (s : System)
    (hr : Reachable (System.init n (New ls).spawned) s)
    (hcalled : s.closePC ≠ .notCalled) (hp : s.panicked = false) :
    ((n.Close ret).l.Close ret1).result = .error .closeOfClosedChannel ∧
    ((n.Close ret).l.Close ret1).trace = [] ∧
    step s .closeFire = some { s with panicked := true } := by
  have hinv := inv_reachable hnew hr
  have hc := hinv.closeCalled hcalled
  obtain ⟨_, hn, _, _⟩ := new_some ls n hnew
  subst hn
  rw [close_fresh]
  refine ⟨rfl, rfl, ?_⟩
  simp [step, hp, closeChan, hc]

/-- C7 at one listener, after a first `Close` has returned. -/
theorem Close_twice_panics_witness :
    step { l := ⟨[⟨1, ⟨10⟩⟩], true⟩, loops := [⟨⟨1, ⟨10⟩⟩, .accepting⟩], accepts := [],
           closePC := .returned none, panicked := false,
           trace := [.closeChan, .listenerClose ⟨1, ⟨10⟩⟩], accepted := [], dropped := [] }
        .closeFire
      = some { l := ⟨[⟨1, ⟨10⟩⟩], true⟩, loops := [⟨⟨1, ⟨10⟩⟩, .accepting⟩], accepts := [],
               closePC := .returned none, panicked := true,
               trace := [.closeChan, .listenerClose ⟨1, ⟨10⟩⟩], accepted := [],
               dropped := [] } :=
  (Close_twice_panics [⟨1, ⟨10⟩⟩] _ rfl (fun _ => none) (fun _ => none) _
    ⟨[.closeFire, .closeFinish (fun _ => none)], rfl⟩ (by decide) rfl).2.2

/-- C8: in every state of a program started by a successful `New`, before and after
`Close`, `Addr` returns what `Addr()` of the first listener given to `New` returns;
the slice `listeners` is the one given to `New`, which is not empty, so the index 0
is in range. -/
theorem Addr_first (ls : List NetListener) (n : Listener) (hnew : (New ls).n = some n)
    (ret : Nat → Option NetErr) (s : System)
    (hr : Reachable (System.init n (New ls).spawned) s) :
    ∃ x rest, ls = x :: rest ∧ s.l.listeners = ls ∧ s.l.Addr = .ok x.Addr ∧
      n.Addr = .ok x.Addr ∧ (n.Close ret).l.Addr = .ok x.Addr := by
  have hinv := inv_reachable hnew hr
  obtain ⟨hne, hn, _, _⟩ := new_some ls n hnew
  subst hn
  match ls, hne with
  | x :: rest, _ =>
    refine ⟨x, rest, rfl, hinv.listeners, ?_, ?_, ?_⟩
    · simp [Listener.Addr, hinv.listeners]
    · simp [Listener.Addr]
    · rw [close_fresh]; simp [Listener.Addr]

/-- C8 at two listeners, after `Close` has been called. -/
theorem Addr_first_witness :
    ∃ x rest, [(⟨1, ⟨10⟩⟩ : NetListener), ⟨2, ⟨20⟩⟩] = x :: rest ∧
      (⟨[⟨1, ⟨10⟩⟩, ⟨2, ⟨20⟩⟩], true⟩ : Listener).listeners = [⟨1, ⟨10⟩⟩, ⟨2, ⟨20⟩⟩] ∧
      (⟨[⟨1, ⟨10⟩⟩, ⟨2, ⟨20⟩⟩], true⟩ : Listener).Addr = .ok x.Addr ∧
      (⟨[⟨1, ⟨10⟩⟩, ⟨2, ⟨20⟩⟩], false⟩ : Listener).Addr = .ok x.Addr ∧
      ((⟨[⟨1, ⟨10⟩⟩, ⟨2, ⟨20⟩⟩], false⟩ : Listener).Close (fun _ => none)).l.Addr
        = .ok x.Addr :=
  Addr_first [⟨1, ⟨10⟩⟩, ⟨2, ⟨20⟩⟩] _ rfl (fun _ => none)
    { l := ⟨[⟨1, ⟨10⟩⟩, ⟨2, ⟨20⟩⟩], true⟩,
      loops := [⟨⟨1, ⟨10⟩⟩, .accepting⟩, ⟨⟨2, ⟨20⟩⟩, .accepting⟩], accepts := [],
      closePC := .fired, panicked := false, trace := [.closeChan], accepted := [],
      dropped := [] }
    ⟨[.closeFire], rfl⟩

/-- C9: when a loop takes the shutdown branch of its `select` holding the result `r`
of its last `listener.Accept()`, it exits, having called `r.conn.Close()` exactly
once if `r.err` is nil and having made no call at all if `r.err` is not nil. -/
theorem loop_shutdown_branch (s : System) (i : Nat) (x : NetListener) (r : acceptResults)
    (hp : s.panicked = false) (hi : s.loops[i]? = some ⟨x, .shutdown r⟩) :
    ∃ s1, step s (.loopShutdown i) = some s1 ∧
      s1.loops[i]? = some ⟨x, .exited⟩ ∧
      (r.err = none → s1.trace = s.trace ++ [.connClose r.conn]) ∧
      (r.err ≠ none → s1.trace = s.trace) ∧
      (∀ c, s1.trace.count (.connClose c)
        = s.trace.count (.connClose c) + if r.err = none ∧ r.conn = c then 1 else 0) := by
  have hlt : i < s.loops.length := by
    by_contra hge
    rw [List.getElem?_eq_none (by omega)] at hi
    exact absurd hi (by simp)
  refine ⟨_, (Step.loopShutdown s i x r hp hi).to_step, ?_, ?_, ?_, ?_⟩
  · simp [List.getElem?_set, hlt]
  · intro he; simp [shutdownBranch, he]
  · intro he
    cases hre : r.err with
    | none => exact absurd hre he
    | some e => simp [shutdownBranch, hre]
  · intro c
    cases hre : r.err with
    | none =>
      by_cases hcc : r.conn = c <;>
        simp [shutdownBranch, hre, hcc, List.count_cons, List.count_singleton]
    | some e => simp [shutdownBranch, hre]

/-- C9 at a loop that holds an accepted connection when `closing` is closed: it
closes the connection and exits. -/
theorem loop_shutdown_branch_witness :
    ∃ s1, step { l := ⟨[⟨1, ⟨10⟩⟩], true⟩,
                 loops := [⟨⟨1, ⟨10⟩⟩, .shutdown ⟨some ⟨7⟩, none⟩⟩], accepts := [],
                 closePC := .fired, panicked := false, trace := [.closeChan],
                 accepted := [⟨some ⟨7⟩, none⟩], dropped := [] } (.loopShutdown 0) = some s1 ∧
      s1.loops[0]? = some ⟨⟨1, ⟨10⟩⟩, .exited⟩ ∧
      s1.trace = [.closeChan, .connClose (some ⟨7⟩)] := by
  obtain ⟨s1, h1, h2, h3, _⟩ := loop_shutdown_branch
    { l := ⟨[⟨1, ⟨10⟩⟩], true⟩,
      loops := [⟨⟨1, ⟨10⟩⟩, .shutdown ⟨some ⟨7⟩, none⟩⟩], accepts := [],
      closePC := .fired, panicked := false, trace := [.closeChan],
      accepted := [⟨some ⟨7⟩, none⟩], dropped := [] } 0 ⟨1, ⟨10⟩⟩ ⟨some ⟨7⟩, none⟩ rfl rfl
  exact ⟨s1, h1, h2, h3 rfl⟩

/-- C10: in a program started by `New`, while `closing` is open every loop is either
inside `listener.Accept()` or parked in its `select` still holding its result, no
result has been dropped, and every result accepted so far, connection or error, has
been returned by a call of `Accept` or is held by its loop; a loop becomes exited only
by running its shutdown branch; after a handoff, whether the `select` of the loop or
that of `Accept` completes it and whether the result is a connection or an error, the
loop is again inside `listener.Accept()` and the call of `Accept` has received exactly
that result; a loop that cannot hand its result over parks holding it, and it cannot
park while a caller is parked in `Accept`. -/
theorem loop_exits_only_on_shutdown (ls : List NetListener) (n : Listener)
    (hnew : (New ls).n = some n) (s : System)
    (hr : Reachable (System.init n (New ls).spawned) s) :
    (s.l.closing = false →
      s.dropped = [] ∧ ∀ lp ∈ s.loops, lp.pc = .accepting ∨ ∃ r, lp.pc = .blocked r) ∧
    (∀ a s1, step s a = some s1 → ∀ i x, s1.loops[i]? = some ⟨x, .exited⟩ →
      s.loops[i]? = some ⟨x, .exited⟩ ∨
        (a = .loopShutdown i ∧ ∃ r, s.loops[i]? = some ⟨x, .shutdown r⟩)) ∧
    (∀ i conn err j s1, step s (.loopAccept i conn err (.send j)) = some s1 →
      (∃ x, s1.loops[i]? = some ⟨x, .accepting⟩) ∧
        s1.accepts[j]? = some (.returned (.conns ⟨conn, err⟩ true)) ∧
        s1.dropped = s.dropped) ∧
    (∀ i s1, step s (.accept (.recv i)) = some s1 →
      ∃ x r, s.loops[i]? = some ⟨x, .blocked r⟩ ∧ s1.loops[i]? = some ⟨x, .accepting⟩ ∧
        s1.accepts = s.accepts ++ [.returned (.conns r true)] ∧ s1.dropped = s.dropped) ∧
    (∀ i conn err c s1, step s (.loopAccept i conn err c) = some s1 →
      ∃ x, s.loops[i]? = some ⟨x, .accepting⟩ ∧
        (s1.loops[i]? = some ⟨x, .accepting⟩ ∨
          s1.loops[i]? = some ⟨x, .blocked ⟨conn, err⟩⟩ ∨
          (s.l.closing = true ∧ s1.loops[i]? = some ⟨x, .shutdown ⟨conn, err⟩⟩))) ∧
    (s.panicked = false → ∀ i x conn err, s.loops[i]? = some ⟨x, .accepting⟩ →
      ∃ c s1, step s (.loopAccept i conn err c) = some s1) ∧
    (s.l.closing = false →
      ∀ r, s.accepted.count r = s.delivered.count r + s.pending.count r) ∧
    (∀ i conn err c s1, step s (.loopAccept i conn err c) = some s1 →
      ∃ x, s.loops[i]? = some ⟨x, .accepting⟩ ∧
        s1.accepted = s.accepted ++ [⟨conn, err⟩] ∧ s1.dropped = s.dropped ∧
        (∀ j, c = .send j → s.accepts[j]? = some .blocked ∧
          s1.loops[i]? = some ⟨x, .accepting⟩ ∧
          s1.accepts[j]? = some (.returned (.conns ⟨conn, err⟩ true)) ∧
          s1.accepts.length = s.accepts.length) ∧
        (c = .block → s.l.closing = false ∧ s.accepts.any AcceptPC.isBlocked = false ∧
          s1.loops[i]? = some ⟨x, .blocked ⟨conn, err⟩⟩ ∧ s1.accepts = s.accepts) ∧
        (c = .closing → s.l.closing = true ∧
          s1.loops[i]? = some ⟨x, .shutdown ⟨conn, err⟩⟩ ∧ s1.accepts = s.accepts)) ∧
    (s.panicked = false → ∀ (i j : Nat) (x : NetListener) (conn : Option Conn)
        (err : Option NetErr),
      s.loops[i]? = some ⟨x, .accepting⟩ → s.accepts[j]? = some .blocked →
      step s (.loopAccept i conn err .block) = none ∧
      ∃ s1, step s (.loopAccept i conn err (.send j)) = some s1 ∧
        s1.loops[i]? = some ⟨x, .accepting⟩ ∧
        s1.accepts[j]? = some (.returned (.conns ⟨conn, err⟩ true))) := by
  have hinv := inv_reachable hnew hr
  refine ⟨hinv.openLoops, ?_, ?_, ?_, ?_, ?_, ?_, ?_, ?_⟩
  · intro a s1 h i x hi
    exact exit_only_by_shutdown (Step.of_step h) i x hi
  · intro i conn err j s1 h
    have hs := Step.of_step h
    cases hs with
    | loopSend _ _ _ _ x hp hi hj =>
      have hlt : j < s.accepts.length := by
        by_contra hge
        rw [List.getElem?_eq_none (by omega)] at hj
        exact absurd hj (by simp)
      exact ⟨⟨x, hi⟩, by simp [List.getElem?_set, hlt], rfl⟩
  · intro i s1 h
    have hs := Step.of_step h
    cases hs with
    | acceptRecv _ x r hp hi =>
      have hlt : i < s.loops.length := by
        by_contra hge
        rw [List.getElem?_eq_none (by omega)] at hi
        exact absurd hi (by simp)
      exact ⟨x, r, hi, by simp [List.getElem?_set, hlt], rfl, rfl⟩
  · intro i conn err c s1 h
    have hs := Step.of_step h
    have hlt : ∀ x pc, s.loops[i]? = some ⟨x, pc⟩ → i < s.loops.length := by
      intro x pc hi
      by_contra hge
      rw [List.getElem?_eq_none (by omega)] at hi
      exact absurd hi (by simp)
    cases hs with
    | loopSend _ j _ _ x hp hi hj => exact ⟨x, hi, Or.inl hi⟩
    | loopClosing _ _ _ x hp hi hc =>
      exact ⟨x, hi, Or.inr (Or.inr ⟨hc, by simp [List.getElem?_set, hlt _ _ hi]⟩)⟩
    | loopBlock _ _ _ x hp hi hc hb =>
      exact ⟨x, hi, Or.inr (Or.inl (by simp [List.getElem?_set, hlt _ _ hi]))⟩
  · intro hp i x conn err hi
    cases hc : s.l.closing with
    | true => exact ⟨.closing, _, (Step.loopClosing s i conn err x hp hi hc).to_step⟩
    | false =>
      cases hb : s.accepts.any AcceptPC.isBlocked with
      | false => exact ⟨.block, _, (Step.loopBlock s i conn err x hp hi hc hb).to_step⟩
      | true =>
        obtain ⟨a, ha, hab⟩ := List.any_eq_true.mp hb
        obtain ⟨j, hj⟩ := List.mem_iff_getElem?.mp ha
        cases a with
        | blocked => exact ⟨.send j, _, (Step.loopSend s i j conn err x hp hi hj).to_step⟩
        | returned sel => simp [AcceptPC.isBlocked] at hab
  · intro hc r
    have h1 := hinv.conserve r
    rw [(hinv.openLoops hc).1] at h1
    simpa using h1
  · intro i conn err c s1 h
    exact loopAccept_outcome (Step.of_step h)
  · intro hp i j x conn err hi hj
    exact send_to_parked hp conn err hi hj

/-- C10 at a loop whose `listener.Accept()` failed: with a caller parked in `Accept`
it hands the error over and is inside `listener.Accept()` again; with nobody waiting
it parks holding the error, which is then neither dropped nor lost. -/
theorem loop_exits_only_on_shutdown_witness :
    (∃ s1, step { l := ⟨[⟨1, ⟨10⟩⟩], false⟩, loops := [⟨⟨1, ⟨10⟩⟩, .accepting⟩],
                  accepts := [.blocked], closePC := .notCalled, panicked := false,
                  trace := [], accepted := [], dropped := [] }
             (.loopAccept 0 none (some ⟨5⟩) (.send 0)) = some s1 ∧
       s1.loops[0]? = some ⟨⟨1, ⟨10⟩⟩, .accepting⟩ ∧
       s1.accepts[0]? = some (.returned (.conns ⟨none, some ⟨5⟩⟩ true))) ∧
    (∃ s1, step (System.init ⟨[⟨1, ⟨10⟩⟩], false⟩ [⟨⟨1, ⟨10⟩⟩, .accepting⟩])
             (.loopAccept 0 none (some ⟨5⟩) .block) = some s1 ∧
       s1.loops[0]? = some ⟨⟨1, ⟨10⟩⟩, .blocked ⟨none, some ⟨5⟩⟩⟩ ∧
       s1.accepted = [⟨none, some ⟨5⟩⟩] ∧ s1.dropped = []) := by
  have h := (loop_exits_only_on_shutdown [⟨1, ⟨10⟩⟩] _ rfl
    { l := ⟨[⟨1, ⟨10⟩⟩], false⟩, loops := [⟨⟨1, ⟨10⟩⟩, .accepting⟩],
      accepts := [.blocked], closePC := .notCalled, panicked := false,
      trace := [], accepted := [], dropped := [] }
    ⟨[.accept .block], rfl⟩).2.2.1 0 none (some ⟨5⟩) 0 _ rfl
  obtain ⟨x, hx, hacc, hdr, _, hblock, _⟩ :=
    (loop_exits_only_on_shutdown [⟨1, ⟨10⟩⟩] _ rfl
      (System.init ⟨[⟨1, ⟨10⟩⟩], false⟩ [⟨⟨1, ⟨10⟩⟩, .accepting⟩])
      ⟨[], rfl⟩).2.2.2.2.2.2.2.1 0 none (some ⟨5⟩) .block _ rfl
  have hx1 : (⟨1, ⟨10⟩⟩ : NetListener) = x := by simpa [System.init] using hx
  subst hx1
  exact ⟨⟨_, rfl, rfl, h.2.1⟩, ⟨_, rfl, (hblock rfl).2.2.1, hacc, hdr⟩⟩

/-- C4: once a call of `Close` has returned, the channel `closing` stays closed, and
every call of `Accept` that evaluates its `select` from then on, however many there
are, returns a nil connection and the error "listener is closed": such a call
cannot park, cannot receive from a loop, and is always able to return. -/
theorem Accept_after_Close (ls : List NetListener) (n : Listener)
    (hnew : (New ls).n = some n) (s : System)
    (hr : Reachable (System.init n (New ls).spawned) s) (e : Option GoError)
    (hclosed : s.closePC = .returned e) (as : List Action) (s1 : System)
    (hrun : run s as = some s1) :
    s1.l.closing = true ∧
    (∀ j : Nat, s.accepts.length ≤ j → j < s1.accepts.length →
      ∃ a, s1.accepts[j]? = some a ∧
        a.result = some (none, some (.errorf "listener is closed"))) ∧
    (∀ c s2, step s1 (.accept c) = some s2 →
      c = .closing ∧ s2.accepts = s1.accepts ++ [.returned .closing]) ∧
    (s1.panicked = false → ∃ s2, step s1 (.accept .closing) = some s2) := by
  have hinv := inv_reachable hnew hr
  have hc : s.l.closing = true := hinv.closeCalled (by simp [hclosed])
  obtain ⟨hc1, k, hk⟩ := closed_run as hinv hc hrun
  have hinv1 := inv_run as hinv hrun
  refine ⟨hc1, ?_, ?_, ?_⟩
  · intro j hj1 hj2
    refine ⟨.returned .closing, ?_, rfl⟩
    rw [hk] at hj2 ⊢
    simp only [List.length_append, List.length_replicate] at hj2
    rw [List.getElem?_append_right hj1, List.getElem?_replicate, if_pos (by omega)]
  · intro c s2 h
    have hs := Step.of_step h
    cases hs with
    | acceptRecv i x r hp hi =>
      exact absurd (hinv1.closedLoops hc1 _ (List.getElem?_mem hi)) (by simp [Loop.isBlocked])
    | acceptClosing => exact ⟨rfl, rfl⟩
    | acceptBlock hp hc2 hb => simp [hc1] at hc2
  · intro hp
    exact ⟨_, (Step.acceptClosing s1 hp hc1).to_step⟩

/-- C4 at one listener: two calls of `Accept` after `Close` has returned. -/
theorem Accept_after_Close_witness :
    ∃ s1, run (System.init ⟨[⟨1, ⟨10⟩⟩], false⟩ [⟨⟨1, ⟨10⟩⟩, .accepting⟩])
        [.closeFire, .closeFinish (fun _ => none), .accept .closing, .accept .closing]
        = some s1 ∧
      ∀ j : Nat, 0 ≤ j → j < s1.accepts.length →
        ∃ a, s1.accepts[j]? = some a ∧
          a.result = some (none, some (.errorf "listener is closed")) :=
  ⟨_, rfl, (Accept_after_Close [⟨1, ⟨10⟩⟩] _ rfl
    { l := ⟨[⟨1, ⟨10⟩⟩], true⟩, loops := [⟨⟨1, ⟨10⟩⟩, .accepting⟩], accepts := [],
      closePC := .returned none, panicked := false,
      trace := [.closeChan, .listenerClose ⟨1, ⟨10⟩⟩], accepted := [], dropped := [] }
    ⟨[.closeFire, .closeFinish (fun _ => none)], rfl⟩ none rfl
    [.accept .closing, .accept .closing] _ rfl).2.1⟩

/-- C5: `Accept` returns the connection and the error of the result it receives from
`conns` as they are; in a program started by `New` every result a call of `Accept`
received (always with `ok` true) is a pair that an underlying `listener.Accept()`
returned, and the only results ever recorded as accepted are those pairs. -/
theorem Accept_passes_result (ls : List NetListener) (n : Listener)
    (hnew : (New ls).n = some n) (s : System)
    (hr : Reachable (System.init n (New ls).spawned) s) :
    (∀ r, Listener.Accept (.conns r true) = (r.conn, r.err.map GoError.underlying)) ∧
    (∀ (j : Nat) (r : acceptResults) (ok : Bool),
      s.accepts[j]? = some (AcceptPC.returned (.conns r ok)) →
      ok = true ∧ r ∈ s.accepted ∧
        (AcceptPC.returned (.conns r ok)).result
          = some (r.conn, r.err.map GoError.underlying)) ∧
    (∀ a s1, step s a = some s1 →
      s1.accepted = s.accepted ∨
        ∃ i conn err c, a = .loopAccept i conn err c ∧
          s1.accepted = s.accepted ++ [⟨conn, err⟩]) := by
  have hinv := inv_reachable hnew hr
  refine ⟨fun r => rfl, ?_, ?_⟩
  · intro j r ok hj
    have hmem := List.getElem?_mem hj
    have hok := hinv.recvOk r ok hmem
    subst hok
    exact ⟨rfl, mem_accepted_of_received hinv _ hmem r rfl, rfl⟩
  · intro a s1 h
    have hs := Step.of_step h
    cases hs with
    | loopSend i j conn err x hp hi hj => exact Or.inr ⟨i, conn, err, _, rfl, rfl⟩
    | loopClosing i conn err x hp hi hc => exact Or.inr ⟨i, conn, err, _, rfl, rfl⟩
    | loopBlock i conn err x hp hi hc hb => exact Or.inr ⟨i, conn, err, _, rfl, rfl⟩
    | loopShutdown => exact Or.inl rfl
    | acceptRecv => exact Or.inl rfl
    | acceptClosing => exact Or.inl rfl
    | acceptBlock => exact Or.inl rfl
    | closePanic => exact Or.inl rfl
    | closeFire => exact Or.inl rfl
    | closeFinish => exact Or.inl rfl

/-- C5 at two listeners: a connection accepted by the second one and a failure of the
first one, each received by a call of `Accept`. -/
theorem Accept_passes_result_witness :
    ∃ s, run (System.init ⟨[⟨1, ⟨10⟩⟩, ⟨2, ⟨20⟩⟩], false⟩
          [⟨⟨1, ⟨10⟩⟩, .accepting⟩, ⟨⟨2, ⟨20⟩⟩, .accepting⟩])
        [.loopAccept 1 (some ⟨7⟩) none .block, .accept (.recv 1), .accept .block,
         .loopAccept 0 none (some ⟨5⟩) (.send 1)] = some s ∧
      s.accepts.map AcceptPC.result
        = [some (some ⟨7⟩, none), some (none, some (.underlying ⟨5⟩))] ∧
      (⟨none, some ⟨5⟩⟩ : acceptResults) ∈ s.accepted := by
  refine ⟨_, rfl, rfl, ?_⟩
  exact ((Accept_passes_result [⟨1, ⟨10⟩⟩, ⟨2, ⟨20⟩⟩] _ rfl _
    ⟨[.loopAccept 1 (some ⟨7⟩) none .block, .accept (.recv 1), .accept .block,
      .loopAccept 0 none (some ⟨5⟩) (.send 1)], rfl⟩).2.1 1 ⟨none, some ⟨5⟩⟩ true rfl).2.1

/-- C6 fails as stated: with one listener, a connection is accepted by the loop while
`closing` is open and no call of `Accept` is waiting; `Close` then closes `closing`,
the loop takes its shutdown branch, closes the connection and exits.  The connection
was accepted while the listener was open, and in no continuation of the program does
a call of `Accept` return it. -/
theorem accepted_conn_closed_at_shutdown :
    ∃ s0 s,
      step (System.init ⟨[⟨1, ⟨10⟩⟩], false⟩ (New [⟨1, ⟨10⟩⟩]).spawned)
        (.loopAccept 0 (some ⟨7⟩) none .block) = some s0 ∧
      s0.l.closing = false ∧ (⟨some ⟨7⟩, none⟩ : acceptResults) ∈ s0.accepted ∧
      run s0 [.closeFire, .loopShutdown 0] = some s ∧
      Event.connClose (some ⟨7⟩) ∈ s.trace ∧
      ∀ as s1, run s as = some s1 →
        ∀ a ∈ s1.accepts, a.received ≠ some ⟨some ⟨7⟩, none⟩ := by
  refine ⟨_, _, rfl, rfl, by decide, rfl, by decide, ?_⟩
  intro as s1 hrun a ha
  have h := dead_run as (by decide) (by decide) hrun a ha
  simp [h]

/-- C6, amended: in a program started by `New`, every result accepted by a loop is,
counted with repetitions, in exactly one place: returned by one call of `Accept`,
still held by its loop, or disposed of by the shutdown branch of its loop; so no
accepted result is returned more often than it was accepted and none vanishes.
While `closing` is open nothing has been disposed of, and the handoff works in both
orders: a call of `Accept` evaluated while a loop is parked holding a result can
receive that result and can neither park nor return the closed error; a loop whose
`listener.Accept()` returns while a caller is parked in `Accept` cannot park and
hands exactly its result to that caller; a loop that finds no caller parks holding
exactly its result; and never are a loop and a caller parked at the same time. -/
theorem accepted_results_conserved (ls : List NetListener) (n : Listener)
    (hnew : (New ls).n = some n) (s : System)
    (hr : Reachable (System.init n (New ls).spawned) s) :
    (∀ r, s.accepted.count r
      = s.delivered.count r + s.pending.count r + s.dropped.count r) ∧
    (∀ r, s.delivered.count r ≤ s.accepted.count r) ∧
    (s.l.closing = false → s.dropped = []) ∧
    (s.panicked = false → s.l.closing = false →
      ∀ (i : Nat) (x : NetListener) (r : acceptResults),
        s.loops[i]? = some ⟨x, .blocked r⟩ →
        (∃ s1, step s (.accept (.recv i)) = some s1 ∧
          s1.accepts = s.accepts ++ [.returned (.conns r true)]) ∧
        step s (.accept .block) = none ∧ step s (.accept .closing) = none) ∧
    (s.panicked = false → ∀ (i j : Nat) (x : NetListener) (conn : Option Conn)
        (err : Option NetErr),
      s.loops[i]? = some ⟨x, .accepting⟩ → s.accepts[j]? = some .blocked →
      step s (.loopAccept i conn err .block) = none ∧
      step s (.loopAccept i conn err .closing) = none ∧
      ∃ s1, step s (.loopAccept i conn err (.send j)) = some s1 ∧
        s1.loops[i]? = some ⟨x, .accepting⟩ ∧
        s1.accepts[j]? = some (.returned (.conns ⟨conn, err⟩ true))) ∧
    (∀ i conn err c s1, step s (.loopAccept i conn err c) = some s1 →
      ∃ x, s.loops[i]? = some ⟨x, .accepting⟩ ∧
        s1.accepted = s.accepted ++ [⟨conn, err⟩] ∧ s1.dropped = s.dropped ∧
        (∀ j, c = .send j → s.accepts[j]? = some .blocked ∧
          s1.loops[i]? = some ⟨x, .accepting⟩ ∧
          s1.accepts[j]? = some (.returned (.conns ⟨conn, err⟩ true)) ∧
          s1.accepts.length = s.accepts.length) ∧
        (c = .block → s.l.closing = false ∧ s.accepts.any AcceptPC.isBlocked = false ∧
          s1.loops[i]? = some ⟨x, .blocked ⟨conn, err⟩⟩ ∧ s1.accepts = s.accepts) ∧
        (c = .closing → s.l.closing = true ∧
          s1.loops[i]? = some ⟨x, .shutdown ⟨conn, err⟩⟩ ∧ s1.accepts = s.accepts)) ∧
    (∀ lp ∈ s.loops, ∀ b ∈ s.accepts, lp.isBlocked = true → b.isBlocked = false) := by
  have hinv := inv_reachable hnew hr
  refine ⟨hinv.conserve, ?_, fun hc => (hinv.openLoops hc).1, ?_, ?_, ?_,
    never_both_reachable hr⟩
  · intro r
    have := hinv.conserve r
    omega
  · intro hp hc i x r hi
    refine ⟨⟨_, (Step.acceptRecv s i x r hp hi).to_step, rfl⟩, ?_, ?_⟩
    · have hb : s.loops.any Loop.isBlocked = true :=
        List.any_eq_true.mpr ⟨_, List.getElem?_mem hi, rfl⟩
      simp [step, hp, hb]
    · simp [step, hp, hc]
  · intro hp i j x conn err hi hj
    obtain ⟨h1, h2⟩ := send_to_parked hp conn err hi hj
    refine ⟨h1, ?_, h2⟩
    have hc : s.l.closing = false := by
      cases hcv : s.l.closing with
      | false => rfl
      | true =>
        exact absurd (hinv.closedAccepts hcv _ (List.getElem?_mem hj))
          (by simp [AcceptPC.isBlocked])
    simp [step, hp, hi, hc]
  · intro i conn err c s1 h
    exact loopAccept_outcome (Step.of_step h)

/-- C6, amended, at two listeners with a connection arriving on the second one only,
in both orders: the loop parks first and a later call of `Accept` returns the
connection; or the caller parks first and the loop hands it the connection. -/
theorem accepted_results_conserved_witness :
    (∃ s1, step { l := ⟨[⟨1, ⟨10⟩⟩, ⟨2, ⟨20⟩⟩], false⟩,
                  loops := [⟨⟨1, ⟨10⟩⟩, .accepting⟩,
                            ⟨⟨2, ⟨20⟩⟩, .blocked ⟨some ⟨7⟩, none⟩⟩],
                  accepts := [], closePC := .notCalled, panicked := false, trace := [],
                  accepted := [⟨some ⟨7⟩, none⟩], dropped := [] }
             (.accept (.recv 1)) = some s1 ∧
       s1.accepts = [] ++ [.returned (.conns ⟨some ⟨7⟩, none⟩ true)]) ∧
    (step { l := ⟨[⟨1, ⟨10⟩⟩, ⟨2, ⟨20⟩⟩], false⟩,
            loops := [⟨⟨1, ⟨10⟩⟩, .accepting⟩, ⟨⟨2, ⟨20⟩⟩, .accepting⟩],
            accepts := [.blocked], closePC := .notCalled, panicked := false,
            trace := [], accepted := [], dropped := [] }
        (.loopAccept 1 (some ⟨7⟩) none .block) = none ∧
     ∃ s1, step { l := ⟨[⟨1, ⟨10⟩⟩, ⟨2, ⟨20⟩⟩], false⟩,
                  loops := [⟨⟨1, ⟨10⟩⟩, .accepting⟩, ⟨⟨2, ⟨20⟩⟩, .accepting⟩],
                  accepts := [.blocked], closePC := .notCalled, panicked := false,
                  trace := [], accepted := [], dropped := [] }
             (.loopAccept 1 (some ⟨7⟩) none (.send 0)) = some s1 ∧
       s1.accepts[0]? = some (.returned (.conns ⟨some ⟨7⟩, none⟩ true))) := by
  have h1 := ((accepted_results_conserved [⟨1, ⟨10⟩⟩, ⟨2, ⟨20⟩⟩] _ rfl
    { l := ⟨[⟨1, ⟨10⟩⟩, ⟨2, ⟨20⟩⟩], false⟩,
      loops := [⟨⟨1, ⟨10⟩⟩, .accepting⟩, ⟨⟨2, ⟨20⟩⟩, .blocked ⟨some ⟨7⟩, none⟩⟩],
      accepts := [], closePC := .notCalled, panicked := false, trace := [],
      accepted := [⟨some ⟨7⟩, none⟩], dropped := [] }
    ⟨[.loopAccept 1 (some ⟨7⟩) none .block], rfl⟩).2.2.2.1 rfl rfl
      1 ⟨2, ⟨20⟩⟩ ⟨some ⟨7⟩, none⟩ rfl).1
  obtain ⟨h2, _, s1, h3, _, h4⟩ := (accepted_results_conserved [⟨1, ⟨10⟩⟩, ⟨2, ⟨20⟩⟩] _ rfl
    { l := ⟨[⟨1, ⟨10⟩⟩, ⟨2, ⟨20⟩⟩], false⟩,
      loops := [⟨⟨1, ⟨10⟩⟩, .accepting⟩, ⟨⟨2, ⟨20⟩⟩, .accepting⟩],
      accepts := [.blocked], closePC := .notCalled, panicked := false,
      trace := [], accepted := [], dropped := [] }
    ⟨[.accept .block], rfl⟩).2.2.2.2.1 rfl 1 0 ⟨2, ⟨20⟩⟩ (some ⟨7⟩) none rfl rfl
  exact ⟨h1, h2, s1, h3, h4⟩

end Multilistener
